import Mathlib

/-!
Shallow embedding of the BTC/ETH market-health dashboard script (app.py),
together with theorems checking the specification claims.

The script loads a CSV into a date-indexed table, slices the table by a
user-selected date range, builds four plotly figures and a table/export
view from the slice, and exports the slice back to CSV.

Modelling conventions:
  * calendar dates are natural numbers in yyyymmdd form (order-isomorphic
    to real dates);
  * float cells are exact decimals `mant * 10 ^ (-scale)` (`DecVal`);
  * CSV text is a `List Char`; the serializer and parser below stand for
    pandas `to_csv` / `read_csv` at the granularity the claims need
    (header row, one line per record, comma-separated cells, numbers
    written in exponent notation);
  * a Python exception is an `Option`/`Except` failure value.
-/

namespace CryptoDashboard

/-- Is the character a decimal digit (codepoint 48..57). -/
def isDigitCh (c : Char) : Bool := 48 ≤ c.toNat && c.toNat ≤ 57

/-- Decimal rendering of a natural number; fuel-indexed so that it is
structurally recursive and evaluates inside the kernel. -/
def renderNatAux : Nat → Nat → List Char
  | 0, _ => []
  | fuel + 1, n =>
    if n < 10 then [Nat.digitChar n]
    else renderNatAux fuel (n / 10) ++ [Nat.digitChar (n % 10)]

/-- Decimal rendering of a natural number. -/
def renderNat (n : Nat) : List Char := renderNatAux (n + 1) n

/-- Accumulator pass of the decimal parser. -/
def parseNatAux : Nat → List Char → Nat
  | acc, [] => acc
  | acc, c :: cs => parseNatAux (10 * acc + (c.toNat - 48)) cs

/-- Parse a nonempty all-digit string as a natural number. -/
def parseNat (s : List Char) : Option Nat :=
  if s.isEmpty then none
  else if s.all isDigitCh then some (parseNatAux 0 s) else none

/-- Decimal rendering of an integer (minus sign plus digits). -/
def renderInt (i : Int) : List Char :=
  if i < 0 then '-' :: renderNat i.natAbs else renderNat i.natAbs

/-- Parse an optional minus sign followed by digits. -/
def parseInt : List Char → Option Int
  | [] => none
  | c :: rest =>
    if c = '-' then (parseNat rest).map (fun n => -(Int.ofNat n))
    else (parseNat (c :: rest)).map (fun n => Int.ofNat n)

/-- Exact decimal value `mant * 10 ^ (-scale)`: the value of a float cell. -/
structure DecVal where
  mant : Int
  scale : Nat
deriving DecidableEq

/-- The zero cell value. -/
def DecVal.zero : DecVal := ⟨0, 0⟩

/-- The rational value of a decimal cell. -/
def DecVal.toRat (d : DecVal) : ℚ := (d.mant : ℚ) / ((10 : ℚ) ^ d.scale)

/-- Render a cell value in exponent notation `<mant>e-<scale>`. -/
def renderDec (d : DecVal) : List Char :=
  renderInt d.mant ++ 'e' :: '-' :: renderNat d.scale

/-- Join chunks of text with a separator character. -/
def joinSep (sep : Char) : List (List Char) → List Char
  | [] => []
  | [x] => x
  | x :: y :: rest => x ++ sep :: joinSep sep (y :: rest)

/-- Split text at every occurrence of a separator character. -/
def splitSep (sep : Char) : List Char → List (List Char)
  | [] => [[]]
  | c :: cs =>
    match splitSep sep cs with
    | [] => [[]]
    | g :: gs => if c = sep then [] :: g :: gs else (c :: g) :: gs

/-- Parse a cell in exponent notation back into a `DecVal`. -/
def parseDec (s : List Char) : Option DecVal :=
  match splitSep 'e' s with
  | [m, '-' :: ex] => do
    let mi ← parseInt m
    let en ← parseNat ex
    pure ⟨mi, en⟩
  | _ => none

/-! ### Data model (§3): the date-indexed record set -/

/-- The loaded record set: column names plus date-keyed records, mirroring
the pandas DataFrame with its `date` index. -/
structure DataFrame where
  cols : List (List Char)
  rows : List (Nat × List DecVal)
deriving DecidableEq

/-- Column name `btc_price_usd`. -/
def colBtcPrice : List Char := "btc_price_usd".toList
/-- Column name `eth_price_usd`. -/
def colEthPrice : List Char := "eth_price_usd".toList
/-- Column name `btc_price_30d_ma`. -/
def colBtcMa : List Char := "btc_price_30d_ma".toList
/-- Column name `eth_price_30d_ma`. -/
def colEthMa : List Char := "eth_price_30d_ma".toList
/-- Column name `btc_vol_30d`. -/
def colBtcVol : List Char := "btc_vol_30d".toList
/-- Column name `eth_vol_30d`. -/
def colEthVol : List Char := "eth_vol_30d".toList
/-- Column name `btc_eth_price_corr_90d`. -/
def colCorr : List Char := "btc_eth_price_corr_90d".toList
/-- Column name `btc_volume_7d_ma`. -/
def colBtcVolume : List Char := "btc_volume_7d_ma".toList
/-- Column name `eth_volume_7d_ma`. -/
def colEthVolume : List Char := "eth_volume_7d_ma".toList

/-- The name of the index column. -/
def dateHeader : List Char := "date".toList

/-! ### CSV serialization (pandas to_csv / read_csv) -/

/-- Render one record as a CSV line: date first, then the cells. -/
def renderRow (r : Nat × List DecVal) : List Char :=
  joinSep ',' (renderNat r.1 :: r.2.map renderDec)

/-- pandas `DataFrame.to_csv`: a header line naming the index column and the
data columns, then one line per record, with a trailing newline. -/
def renderCsv (df : DataFrame) : List Char :=
  joinSep '\n' (joinSep ',' (dateHeader :: df.cols) :: df.rows.map renderRow) ++ ['\n']

/-- Parse one CSV data line into a record with `ncols` cells. -/
def parseRow (ncols : Nat) (line : List Char) : Option (Nat × List DecVal) :=
  match splitSep ',' line with
  | [] => none
  | dcell :: vcells =>
    if vcells.length = ncols then do
      let d ← parseNat dcell
      let vs ← vcells.mapM parseDec
      pure (d, vs)
    else none

/-- Parse every record line against the parsed column list. -/
def parseBody (cols : List (List Char)) (body : List (List Char)) :
    Except (List Char) DataFrame :=
  match body.mapM (parseRow cols.length) with
  | some rows => .ok ⟨cols, rows⟩
  | none => .error "unable to parse a data row".toList

/-- Interpret the split header cells: the first must be the date index. -/
def parseHeaderCells : List (List Char) → List (List Char) → Except (List Char) DataFrame
  | [], _ => .error "no columns to parse from file".toList
  | dcell :: cols, body =>
    if dcell = dateHeader then parseBody cols body
    else .error "index column date not found".toList

/-- Interpret the nonblank lines of the file: header first, then records. -/
def parseLines : List (List Char) → Except (List Char) DataFrame
  | [] => .error "no columns to parse from file".toList
  | header :: body => parseHeaderCells (splitSep ',' header) body

/-- pandas `read_csv(parse_dates=[date], index_col=date)`: split into lines
(blank lines skipped), read the header, then every record line; any
malformed piece raises, here an error value. -/
def parseCsv (text : List Char) : Except (List Char) DataFrame :=
  parseLines ((splitSep '\n' text).filter (fun l => !l.isEmpty))

/-! ### Data loading (app.py lines 20-37) -/

/-- Input of a load attempt: the CSV file is missing, or has some content. -/
inductive LoadInput where
  | missingFile
  | fileContent (text : List Char)
deriving DecidableEq

/-- Outcome of the script prologue: a loaded table, or a halted run that
shows a user-visible error message (st.error followed by st.stop). -/
inductive LoadOutcome where
  | loaded (df : DataFrame)
  | halted (msg : List Char)
deriving DecidableEq

/-- The fixed missing-file message of app.py line 31 (quotation marks
around the file name elided). -/
def fnfMsg : List Char :=
  "Data file not found. Please make sure enriched_btc_eth_metrics_2024_current.csv exists in the same folder.".toList

/-- The prefix of the generic load-error message of app.py line 34. -/
def errPrefix : List Char := "Error loading data: ".toList

/-- app.py lines 20-35: `load_data` with its try/except, caught
FileNotFoundError, and catch-all exception branch. -/
def load_data : LoadInput → LoadOutcome
  | .missingFile => .halted fnfMsg
  | .fileContent text =>
    match parseCsv text with
    | .ok df => .loaded df
    | .error e => .halted (errPrefix ++ e)

/-! ### The date-range filter (app.py lines 54-66) -/

/-- pandas `df.loc[start:stop]` on a monotonically increasing date index:
from the first record dated `start` or later through the last record dated
`stop` or earlier. -/
def locSlice (df : DataFrame) (start stop : Nat) : DataFrame :=
  { cols := df.cols
    rows := (df.rows.dropWhile (fun r => decide (r.1 < start))).takeWhile
      (fun r => decide (r.1 ≤ stop)) }

/-- `df.copy()`. -/
def copyDf (df : DataFrame) : DataFrame := { cols := df.cols, rows := df.rows }

/-- app.py lines 62-66: slice when the selection is a (start, end) pair,
otherwise fall back to a copy of the whole record set. -/
def dateRangeFilter (df : DataFrame) (sel : List Nat) : DataFrame :=
  match sel with
  | [s, e] => locSlice df s e
  | _ => copyDf df

/-! ### The correction band (app.py lines 111-120) -/

/-- Minimum of a list of dates, `none` when empty (pandas NaT). -/
def listMin : List Nat → Option Nat
  | [] => none
  | d :: ds =>
    match listMin ds with
    | none => some d
    | some m => some (min d m)

/-- Maximum of a list of dates, `none` when empty (pandas NaT). -/
def listMax : List Nat → Option Nat
  | [] => none
  | d :: ds =>
    match listMax ds with
    | none => some d
    | some m => some (max d m)

/-- `df.index.min()`. -/
def idxMin (df : DataFrame) : Option Nat := listMin (df.rows.map Prod.fst)

/-- `df.index.max()`. -/
def idxMax (df : DataFrame) : Option Nat := listMax (df.rows.map Prod.fst)

/-- 2026-02-01, the start of the hard-coded correction band. -/
def bandLo : Nat := 20260201

/-- 2026-02-16, the end of the hard-coded correction band. -/
def bandHi : Nat := 20260216

/-- app.py line 112: the band is drawn when
`to_datetime(2026-02-01) <= filtered.index.max()` and
`to_datetime(2026-02-16) >= filtered.index.min()`; on an empty index both
extrema are NaT and every comparison with NaT is false. -/
def showBand (fdf : DataFrame) : Bool :=
  match idxMax fdf, idxMin fdf with
  | some mx, some mn => decide (bandLo ≤ mx) && decide (bandHi ≥ mn)
  | _, _ => false

/-- Modelled from the claim text of C1, for comparison with `showBand`: the
selected [start, end] interval overlaps the fixed band interval. -/
def specRangeOverlapsBand (s e : Nat) : Bool :=
  decide (s ≤ e) && decide (s ≤ bandHi) && decide (bandLo ≤ e)

/-! ### Chart builders (app.py tabs 1-4) -/

/-- One plotted scatter line: the x values (dates) and y values (cells). -/
structure Trace where
  xs : List Nat
  ys : List DecVal
deriving DecidableEq

/-- `df[c]`: the values of one column; `none` is the KeyError raised when
the column is absent. -/
def getCol (df : DataFrame) (c : List Char) : Option (List DecVal) :=
  match df.cols.findIdx? (fun x => decide (x = c)) with
  | none => none
  | some i => some (df.rows.map (fun r => r.2.getD i DecVal.zero))

/-- A scatter trace of one column over the date index. -/
def mkTrace (df : DataFrame) (c : List Char) : Option Trace :=
  (getCol df c).map (fun ys => { xs := df.rows.map Prod.fst, ys := ys })

/-- The price figure: four traces plus the optional correction band. -/
structure Fig1 where
  traces : List Trace
  band : Option (Nat × Nat)
deriving DecidableEq

/-- app.py lines 85-120 (tab 1). -/
def buildFig1 (fdf : DataFrame) : Option Fig1 := do
  let t1 ← mkTrace fdf colBtcPrice
  let t2 ← mkTrace fdf colBtcMa
  let t3 ← mkTrace fdf colEthPrice
  let t4 ← mkTrace fdf colEthMa
  pure { traces := [t1, t2, t3, t4]
         band := if showBand fdf then some (bandLo, bandHi) else none }

/-- The volatility figure: two traces. -/
structure Fig2 where
  traces : List Trace
deriving DecidableEq

/-- app.py lines 140-159 (tab 2). -/
def buildFig2 (fdf : DataFrame) : Option Fig2 := do
  let t1 ← mkTrace fdf colBtcVol
  let t2 ← mkTrace fdf colEthVol
  pure { traces := [t1, t2] }

/-- The correlation figure: one trace, a fixed y-range, and the dashed
zero line spanning the slice extent. -/
structure Fig3 where
  corr : Trace
  zeroLineX0 : Option Nat
  zeroLineX1 : Option Nat
  yLo : Int
  yHi : Int
deriving DecidableEq

/-- app.py lines 167-187 (tab 3). -/
def buildFig3 (fdf : DataFrame) : Option Fig3 := do
  let t ← mkTrace fdf colCorr
  pure { corr := t
         zeroLineX0 := idxMin fdf
         zeroLineX1 := idxMax fdf
         yLo := -1
         yHi := 1 }

/-- The volume figure: two traces on a log-scaled axis. -/
structure Fig4 where
  traces : List Trace
  logScale : Bool
deriving DecidableEq

/-- app.py lines 196-214 (tab 4). -/
def buildFig4 (fdf : DataFrame) : Option Fig4 := do
  let t1 ← mkTrace fdf colBtcVolume
  let t2 ← mkTrace fdf colEthVolume
  pure { traces := [t1, t2], logScale := true }

/-! ### Table view and CSV download (app.py tab 5) -/

/-- Round `a / 10 ^ k` half-to-even (numpy rounding), as an integer. -/
def roundHalfEvenDiv (a : Int) (k : Nat) : Int :=
  let b : Int := (10 : Int) ^ k
  let q := Int.fdiv a b
  let r := a - q * b
  if 2 * r < b then q
  else if b < 2 * r then q + 1
  else if q % 2 = 0 then q else q + 1

/-- pandas `.round(2)` on a cell value (a value that already has at most
two decimal places is unchanged). -/
def DecVal.round2 (d : DecVal) : DecVal :=
  if d.scale ≤ 2 then d
  else { mant := roundHalfEvenDiv d.mant (d.scale - 2), scale := 2 }

/-- `df.tail(n)`: the last `n` records. -/
def tailN (n : Nat) (l : List (Nat × List DecVal)) : List (Nat × List DecVal) :=
  l.drop (l.length - n)

/-- The nine metric columns selected for the table view, in source order
(app.py lines 224-230). -/
def nineCols : List (List Char) :=
  [colBtcPrice, colEthPrice, colBtcMa, colEthMa,
   colBtcVol, colEthVol, colCorr, colBtcVolume, colEthVolume]

/-- The fixed display-format strings of the table style (app.py lines
232-240). -/
def displayFormats : List (List Char × List Char) :=
  [(colBtcPrice, "$\x7b:,.0f\x7d".toList),
   (colEthPrice, "$\x7b:,.0f\x7d".toList),
   (colBtcMa, "$\x7b:,.0f\x7d".toList),
   (colEthMa, "$\x7b:,.0f\x7d".toList),
   (colBtcVol, "\x7b:.1f\x7d%".toList),
   (colEthVol, "\x7b:.1f\x7d%".toList),
   (colCorr, "\x7b:.3f\x7d".toList)]

/-- The table-and-download view: the displayed table (columns, records,
format strings) and the downloadable CSV bytes. -/
structure Tab5 where
  tableCols : List (List Char)
  tableRows : List (Nat × List DecVal)
  formats : List (List Char × List Char)
  csv : List Char
deriving DecidableEq

/-- app.py lines 221-248 (tab 5): the last 15 records of the nine metric
columns, rounded to 2 decimals for display, and the CSV export of the whole
filtered slice; selecting a missing column raises (none). -/
def buildTab5 (fdf : DataFrame) : Option Tab5 := do
  let idxs ← nineCols.mapM (fun c => fdf.cols.findIdx? (fun x => decide (x = c)))
  let recent := tailN 15 fdf.rows
  pure { tableCols := nineCols
         tableRows := recent.map (fun r =>
           (r.1, idxs.map (fun i => DecVal.round2 (r.2.getD i DecVal.zero))))
         formats := displayFormats
         csv := renderCsv fdf }

/-! ### One render cycle and a whole session (§5) -/

/-- Everything one run of the script body renders. -/
structure RenderOutputs where
  fig1 : Option Fig1
  fig2 : Option Fig2
  fig3 : Option Fig3
  fig4 : Option Fig4
  tab5 : Option Tab5
deriving DecidableEq

/-- One top-to-bottom run of the script body after the cached load: slice
by the selected range, build the five views, keep the cache as it was. -/
def renderCycle (cache : DataFrame) (sel : List Nat) : RenderOutputs × DataFrame :=
  let fdf := dateRangeFilter cache sel
  ({ fig1 := buildFig1 fdf
     fig2 := buildFig2 fdf
     fig3 := buildFig3 fdf
     fig4 := buildFig4 fdf
     tab5 := buildTab5 fdf }, cache)

/-- A session: the memoized load followed by any number of interactions. -/
def runSession (cache : DataFrame) (sels : List (List Nat)) : DataFrame :=
  sels.foldl (fun c sel => (renderCycle c sel).2) cache

/-! ### Invariants -/

/-- §3 invariant: the date index is unique and monotonically increasing. -/
abbrev SortedIdx (df : DataFrame) : Prop :=
  df.rows.Pairwise (fun a b => a.1 < b.1)

/-- Well-formed for serialization: every column name is free of the CSV
separators, and every record has one cell per column. -/
abbrev WfFrame (df : DataFrame) : Prop :=
  (∀ c ∈ df.cols, (',' ∈ c → False) ∧ ('\n' ∈ c → False)) ∧
  ∀ r ∈ df.rows, r.2.length = df.cols.length

/-- `c in df.columns`. -/
def hasCol (df : DataFrame) (c : List Char) : Bool :=
  (df.cols.findIdx? (fun x => decide (x = c))).isSome

/-- All nine metric columns are present. -/
def hasAllCols (df : DataFrame) : Bool := nineCols.all (hasCol df)

/-! ### Concrete record sets used as witnesses -/

/-- A record with the given date and the same cell value in all nine
columns. -/
def mkRow (d : Nat) (k : Int) : Nat × List DecVal :=
  (d, List.replicate 9 ⟨k, 2⟩)

/-- A small record set with the nine metric columns. -/
def sampleDf : DataFrame :=
  { cols := nineCols
    rows := [mkRow 20240101 100, mkRow 20240102 200, mkRow 20260215 300] }

/-- Records on 2024-01-01 and 2026-03-01 only: a record set whose gap spans
the whole correction band. -/
def gapDf : DataFrame :=
  { cols := nineCols
    rows := [mkRow 20240101 100, mkRow 20260301 90] }

/-- A CSV text whose one data row has a malformed date cell. -/
def badCsvText : List Char := "date,x\nzz,1e-0\n".toList

/-- The row-level parse error message. -/
def rowErrMsg : List Char := "unable to parse a data row".toList

/-- A one-record set whose cells carry three decimal places, so that
display rounding to two places loses information. -/
def df10 : DataFrame :=
  { cols := nineCols
    rows := [(20240101, List.replicate 9 ⟨1239, 3⟩)] }

/-- Decidable equality of load results. -/
instance : DecidableEq (Except (List Char) DataFrame) := fun a b =>
  match a, b with
  | .ok x, .ok y =>
    if h : x = y then isTrue (by rw [h])
    else isFalse (by intro hh; cases hh; exact h rfl)
  | .error x, .error y =>
    if h : x = y then isTrue (by rw [h])
    else isFalse (by intro hh; cases hh; exact h rfl)
  | .ok _, .error _ => isFalse (by intro hh; cases hh)
  | .error _, .ok _ => isFalse (by intro hh; cases hh)

/-! ### Round-trip lemmas for the cell-level text functions -/

theorem digitCh_toNat {d : Nat} (h : d < 10) : (Nat.digitChar d).toNat = 48 + d := by
  interval_cases d <;> rfl

theorem isDigitCh_digitChar {d : Nat} (h : d < 10) : isDigitCh (Nat.digitChar d) = true := by
  interval_cases d <;> rfl

theorem renderNatAux_succ (fuel n : Nat) :
    renderNatAux (fuel + 1) n =
      if n < 10 then [Nat.digitChar n]
      else renderNatAux fuel (n / 10) ++ [Nat.digitChar (n % 10)] := rfl

theorem renderNatAux_ne_nil {fuel n : Nat} (h : n < fuel) : renderNatAux fuel n ≠ [] := by
  cases fuel with
  | zero => omega
  | succ fuel =>
    rw [renderNatAux_succ]
    by_cases h10 : n < 10
    · simp [h10]
    · simp [h10]

theorem renderNatAux_all_digits {fuel n : Nat} (h : n < fuel) :
    ∀ c ∈ renderNatAux fuel n, isDigitCh c = true := by
  induction fuel generalizing n with
  | zero => omega
  | succ fuel ih =>
    rw [renderNatAux_succ]
    by_cases h10 : n < 10
    · simp only [if_pos h10, List.mem_singleton]
      rintro c rfl
      exact isDigitCh_digitChar h10
    · simp only [if_neg h10, List.mem_append, List.mem_singleton]
      rintro c (hc | rfl)
      · exact ih (by omega) c hc
      · exact isDigitCh_digitChar (Nat.mod_lt _ (by omega))

theorem parseNatAux_nil (acc : Nat) : parseNatAux acc [] = acc := rfl

theorem parseNatAux_cons (acc : Nat) (c : Char) (cs : List Char) :
    parseNatAux acc (c :: cs) = parseNatAux (10 * acc + (c.toNat - 48)) cs := rfl

theorem parseNatAux_append (acc : Nat) (l1 l2 : List Char) :
    parseNatAux acc (l1 ++ l2) = parseNatAux (parseNatAux acc l1) l2 := by
  induction l1 generalizing acc with
  | nil => rfl
  | cons c cs ih => rw [List.cons_append, parseNatAux_cons, parseNatAux_cons, ih]

theorem parseNatAux_renderNatAux {fuel n : Nat} (h : n < fuel) (acc : Nat) :
    parseNatAux acc (renderNatAux fuel n) = acc * 10 ^ (renderNatAux fuel n).length + n := by
  induction fuel generalizing n acc with
  | zero => omega
  | succ fuel ih =>
    rw [renderNatAux_succ]
    by_cases h10 : n < 10
    · rw [if_pos h10, parseNatAux_cons, parseNatAux_nil]
      simp only [List.length_singleton, digitCh_toNat h10, pow_one]
      omega
    · have hdiv : n / 10 < fuel := by
        have := Nat.div_lt_self (by omega : 0 < n) (by omega : 1 < 10)
        omega
      rw [if_neg h10, parseNatAux_append]
      have hmod : n % 10 < 10 := Nat.mod_lt _ (by omega)
      rw [parseNatAux_cons, parseNatAux_nil]
      simp only [digitCh_toNat hmod, List.length_append, List.length_singleton]
      rw [ih hdiv]
      have hdm := Nat.div_add_mod n 10
      have : 10 * (acc * 10 ^ (renderNatAux fuel (n / 10)).length + n / 10) + (48 + n % 10 - 48)
          = acc * (10 ^ (renderNatAux fuel (n / 10)).length * 10) + (10 * (n / 10) + n % 10) := by
        ring_nf
        omega
      rw [this, ← pow_succ]
      omega

theorem parseNat_renderNat (n : Nat) : parseNat (renderNat n) = some n := by
  have hne : ¬ (renderNat n).isEmpty = true := by
    simp only [List.isEmpty_iff]
    exact renderNatAux_ne_nil (Nat.lt_succ_self n)
  have hdig : (renderNat n).all isDigitCh = true :=
    List.all_eq_true.mpr (renderNatAux_all_digits (Nat.lt_succ_self n))
  rw [parseNat, if_neg hne, if_pos hdig]
  have h0 := parseNatAux_renderNatAux (Nat.lt_succ_self n) 0
  simp only [renderNat, Nat.zero_mul, Nat.zero_add] at h0 ⊢
  rw [h0]

theorem renderNat_head_digit (n : Nat) :
    ∀ c, renderNat n = c :: (renderNat n).tail → isDigitCh c = true := by
  intro c hc
  have hmem : c ∈ renderNat n := by rw [hc]; exact List.mem_cons_self _ _
  exact renderNatAux_all_digits (Nat.lt_succ_self n) c hmem

theorem renderNat_ne_dash_cons (n : Nat) (l : List Char) : renderNat n ≠ '-' :: l := by
  intro h
  have hmem : '-' ∈ renderNat n := by rw [h]; exact List.mem_cons_self _ _
  have := renderNatAux_all_digits (Nat.lt_succ_self n) _ hmem
  simp [isDigitCh] at this

theorem parseInt_renderInt (i : Int) : parseInt (renderInt i) = some i := by
  by_cases hneg : i < 0
  · rw [renderInt, if_pos hneg]
    have hstep : parseInt ('-' :: renderNat i.natAbs)
        = (parseNat (renderNat i.natAbs)).map (fun n => -(Int.ofNat n)) := by
      rw [parseInt]
      exact if_pos rfl
    rw [hstep, parseNat_renderNat, Option.map_some']
    congr 1
    rw [Int.ofNat_eq_natCast]
    omega
  · rw [renderInt, if_neg hneg]
    cases hrn : renderNat i.natAbs with
    | nil => exact absurd hrn (renderNatAux_ne_nil (Nat.lt_succ_self _))
    | cons c cs =>
      have hdash : ¬ c = '-' := by
        intro h
        subst h
        exact renderNat_ne_dash_cons _ _ hrn
      rw [parseInt, if_neg hdash, ← hrn, parseNat_renderNat, Option.map_some']
      congr 1
      rw [Int.ofNat_eq_natCast]
      omega

theorem renderNat_not_sep {n : Nat} {c : Char} (hc : c ∈ renderNat n) :
    c ≠ ',' ∧ c ≠ '\n' ∧ c ≠ 'e' := by
  have hd := renderNatAux_all_digits (Nat.lt_succ_self n) c hc
  refine ⟨?_, ?_, ?_⟩ <;> rintro rfl <;> exact absurd hd (by decide)

theorem renderInt_not_sep {i : Int} {c : Char} (hc : c ∈ renderInt i) :
    c ≠ ',' ∧ c ≠ '\n' ∧ c ≠ 'e' := by
  rw [renderInt] at hc
  by_cases hneg : i < 0
  · rw [if_pos hneg] at hc
    rcases List.mem_cons.mp hc with rfl | hc
    · exact ⟨by decide, by decide, by decide⟩
    · exact renderNat_not_sep hc
  · rw [if_neg hneg] at hc
    exact renderNat_not_sep hc

theorem renderDec_not_sep {d : DecVal} {c : Char} (hc : c ∈ renderDec d) :
    c ≠ ',' ∧ c ≠ '\n' := by
  rw [renderDec] at hc
  rcases List.mem_append.mp hc with hc | hc
  · exact ⟨(renderInt_not_sep hc).1, (renderInt_not_sep hc).2.1⟩
  · rcases List.mem_cons.mp hc with rfl | hc
    · exact ⟨by decide, by decide⟩
    · rcases List.mem_cons.mp hc with rfl | hc
      · exact ⟨by decide, by decide⟩
      · exact ⟨(renderNat_not_sep hc).1, (renderNat_not_sep hc).2.1⟩

theorem splitSep_ne_nil (sep : Char) (l : List Char) : splitSep sep l ≠ [] := by
  induction l with
  | nil => simp [splitSep]
  | cons c cs ih =>
    simp only [splitSep]
    cases hs : splitSep sep cs with
    | nil => simp
    | cons g gs => by_cases hc : c = sep <;> simp [hc]

theorem splitSep_single {sep : Char} {x : List Char} (h : sep ∉ x) :
    splitSep sep x = [x] := by
  induction x with
  | nil => rfl
  | cons c cs ih =>
    have hcs : sep ∉ cs := fun hm => h (List.mem_cons_of_mem _ hm)
    have hne : ¬ c = sep := fun hh => h (hh ▸ List.mem_cons_self _ _)
    simp only [splitSep, ih hcs]
    simp [hne]

theorem splitSep_append_cons (sep : Char) (a rest : List Char) (ha : sep ∉ a) :
    splitSep sep (a ++ sep :: rest) = a :: splitSep sep rest := by
  induction a with
  | nil =>
    simp only [List.nil_append, splitSep]
    cases hs : splitSep sep rest with
    | nil => exact absurd hs (splitSep_ne_nil sep rest)
    | cons g gs => simp
  | cons c a' ih =>
    have ha' : sep ∉ a' := fun hm => ha (List.mem_cons_of_mem _ hm)
    have hne : ¬ c = sep := fun hh => ha (hh ▸ List.mem_cons_self _ _)
    simp only [List.cons_append, splitSep, List.append_eq]
    rw [ih ha']
    simp [hne]

theorem joinSep_cons_cons (sep : Char) (x y : List Char) (rest : List (List Char)) :
    joinSep sep (x :: y :: rest) = x ++ sep :: joinSep sep (y :: rest) := rfl

theorem splitSep_joinSep (sep : Char) :
    ∀ l : List (List Char), l ≠ [] → (∀ x ∈ l, sep ∉ x) →
      splitSep sep (joinSep sep l) = l := by
  intro l
  induction l with
  | nil => intro h; cases h rfl
  | cons x xs ih =>
    intro _ h
    cases xs with
    | nil => exact splitSep_single (h x (List.mem_cons_self _ _))
    | cons y rest =>
      rw [joinSep_cons_cons,
        splitSep_append_cons sep x _ (h x (List.mem_cons_self _ _)),
        ih (by simp) (fun z hz => h z (List.mem_cons_of_mem _ hz))]

theorem joinSep_nil_elem (sep : Char) :
    ∀ l : List (List Char), l ≠ [] →
      joinSep sep (l ++ [[]]) = joinSep sep l ++ [sep] := by
  intro l
  induction l with
  | nil => intro h; cases h rfl
  | cons x xs ih =>
    intro _
    cases xs with
    | nil => rfl
    | cons y rest =>
      have h1 : (x :: y :: rest) ++ [[]] = x :: y :: (rest ++ [[]]) := rfl
      have h2 : y :: (rest ++ [[]]) = (y :: rest) ++ [[]] := rfl
      rw [h1, joinSep_cons_cons, h2, ih (by simp), joinSep_cons_cons]
      simp

theorem mem_joinSep {sep : Char} :
    ∀ {l : List (List Char)} {c : Char}, c ∈ joinSep sep l →
      c = sep ∨ ∃ x ∈ l, c ∈ x := by
  intro l
  induction l with
  | nil => intro c hc; cases hc
  | cons x xs ih =>
    intro c hc
    cases xs with
    | nil =>
      exact Or.inr ⟨x, List.mem_cons_self _ _, hc⟩
    | cons y rest =>
      rw [joinSep_cons_cons] at hc
      rcases List.mem_append.mp hc with hc | hc
      · exact Or.inr ⟨x, List.mem_cons_self _ _, hc⟩
      · rcases List.mem_cons.mp hc with rfl | hc
        · exact Or.inl rfl
        · rcases ih hc with h | ⟨z, hz, hcz⟩
          · exact Or.inl h
          · exact Or.inr ⟨z, List.mem_cons_of_mem _ hz, hcz⟩

theorem parseDec_renderDec (d : DecVal) : parseDec (renderDec d) = some d := by
  have hsplit : splitSep 'e' (renderDec d) = [renderInt d.mant, '-' :: renderNat d.scale] := by
    rw [renderDec]
    have hmant : 'e' ∉ renderInt d.mant := fun hm => (renderInt_not_sep hm).2.2 rfl
    rw [splitSep_append_cons 'e' _ _ hmant]
    congr 1
    have hrest : 'e' ∉ '-' :: renderNat d.scale := by
      intro hm
      rcases List.mem_cons.mp hm with h | hm
      · exact absurd h (by decide)
      · exact (renderNat_not_sep hm).2.2 rfl
    exact splitSep_single hrest
  rw [parseDec, hsplit]
  simp only [parseInt_renderInt, parseNat_renderNat, Option.bind_eq_bind,
    Option.some_bind]
  rfl

/-! ### Round trip of a whole CSV file -/

theorem joinSep_ne_nil {sep : Char} {x : List Char} {rest : List (List Char)}
    (hx : x ≠ []) : joinSep sep (x :: rest) ≠ [] := by
  cases rest with
  | nil => exact hx
  | cons y r =>
    rw [joinSep_cons_cons]
    simp

theorem not_isEmpty_of_ne_nil {l : List Char} (h : l ≠ []) : (!l.isEmpty) = true := by
  cases l with
  | nil => cases h rfl
  | cons c cs => rfl

theorem renderRow_ne_nil (r : Nat × List DecVal) : renderRow r ≠ [] := by
  rw [renderRow]
  exact joinSep_ne_nil (renderNatAux_ne_nil (Nat.lt_succ_self _))

theorem newline_not_mem_renderRow (r : Nat × List DecVal) : '\n' ∉ renderRow r := by
  intro hm
  rw [renderRow] at hm
  rcases mem_joinSep hm with h | ⟨x, hx, hcx⟩
  · exact absurd h (by decide)
  · rcases List.mem_cons.mp hx with rfl | hx
    · exact (renderNat_not_sep hcx).2.1 rfl
    · rcases List.mem_map.mp hx with ⟨v, _, rfl⟩
      exact (renderDec_not_sep hcx).2 rfl

theorem mapM_parseDec_renderDec (vs : List DecVal) :
    (vs.map renderDec).mapM parseDec = some vs := by
  induction vs with
  | nil => rfl
  | cons v vs ih =>
    rw [List.map_cons, List.mapM_cons, parseDec_renderDec, ih]
    rfl

theorem parseRow_renderRow (r : Nat × List DecVal) :
    parseRow r.2.length (renderRow r) = some r := by
  have hnc : ∀ x ∈ renderNat r.1 :: r.2.map renderDec, ',' ∉ x := by
    intro x hx hm
    rcases List.mem_cons.mp hx with rfl | hx
    · exact (renderNat_not_sep hm).1 rfl
    · rcases List.mem_map.mp hx with ⟨v, _, rfl⟩
      exact (renderDec_not_sep hm).1 rfl
  rw [renderRow]
  simp only [parseRow]
  rw [splitSep_joinSep ',' _ (by simp) hnc]
  simp only [List.length_map, if_pos rfl, parseNat_renderNat,
    mapM_parseDec_renderDec, Option.bind_eq_bind, Option.some_bind]
  rfl

theorem mapM_parseRow (n : Nat) :
    ∀ rows : List (Nat × List DecVal), (∀ r ∈ rows, r.2.length = n) →
      (rows.map renderRow).mapM (parseRow n) = some rows := by
  intro rows
  induction rows with
  | nil => intro _; rfl
  | cons r rs ih =>
    intro h
    rw [List.map_cons, List.mapM_cons]
    have hr : parseRow n (renderRow r) = some r := by
      rw [← h r (List.mem_cons_self _ _)]
      exact parseRow_renderRow r
    rw [hr, ih (fun x hx => h x (List.mem_cons_of_mem _ hx))]
    rfl

theorem parseCsv_renderCsv (df : DataFrame) (hwf : WfFrame df) :
    parseCsv (renderCsv df) = .ok df := by
  obtain ⟨hcols, hrows⟩ := hwf
  have hheader_no_nl : '\n' ∉ joinSep ',' (dateHeader :: df.cols) := by
    intro hm
    rcases mem_joinSep hm with h | ⟨x, hx, hcx⟩
    · exact absurd h (by decide)
    · rcases List.mem_cons.mp hx with rfl | hx
      · exact absurd hcx (by decide)
      · exact (hcols x hx).2 hcx
  have hheader_ne : joinSep ',' (dateHeader :: df.cols) ≠ [] :=
    joinSep_ne_nil (by decide)
  have hsplit_nl : splitSep '\n' (renderCsv df)
      = (joinSep ',' (dateHeader :: df.cols) :: df.rows.map renderRow) ++ [[]] := by
    rw [renderCsv, ← joinSep_nil_elem '\n' _ (by simp)]
    apply splitSep_joinSep
    · simp
    · intro x hx
      rcases List.mem_append.mp hx with hx | hx
      · rcases List.mem_cons.mp hx with rfl | hx
        · exact hheader_no_nl
        · rcases List.mem_map.mp hx with ⟨r, _, rfl⟩
          exact newline_not_mem_renderRow r
      · rcases List.mem_singleton.mp hx with rfl
        simp
  have hfilter : ((splitSep '\n' (renderCsv df)).filter (fun l => !l.isEmpty))
      = joinSep ',' (dateHeader :: df.cols) :: df.rows.map renderRow := by
    rw [hsplit_nl, List.filter_append]
    have h1 : List.filter (fun l => !l.isEmpty) [([] : List Char)] = [] := rfl
    rw [h1, List.append_nil]
    apply List.filter_eq_self.mpr
    intro a ha
    rcases List.mem_cons.mp ha with rfl | ha
    · exact not_isEmpty_of_ne_nil hheader_ne
    · rcases List.mem_map.mp ha with ⟨r, _, rfl⟩
      exact not_isEmpty_of_ne_nil (renderRow_ne_nil r)
  have hheader_split : splitSep ',' (joinSep ',' (dateHeader :: df.cols))
      = dateHeader :: df.cols := by
    apply splitSep_joinSep
    · simp
    · intro x hx
      rcases List.mem_cons.mp hx with rfl | hx
      · decide
      · exact fun hm => (hcols x hx).1 hm
  simp only [parseCsv]
  rw [hfilter]
  simp only [parseLines]
  rw [hheader_split]
  simp only [parseHeaderCells, if_pos rfl, parseBody]
  rw [mapM_parseRow df.cols.length df.rows hrows]
  simp

/-! ### The slice of a sorted index is the inclusive filter -/

theorem takeWhile_le_eq_filter_sorted {s e : Nat} :
    ∀ rows : List (Nat × List DecVal),
      rows.Pairwise (fun a b => a.1 < b.1) → (∀ x ∈ rows, s ≤ x.1) →
      rows.takeWhile (fun r => decide (r.1 ≤ e))
        = rows.filter (fun r => decide (s ≤ r.1) && decide (r.1 ≤ e)) := by
  intro rows
  induction rows with
  | nil => intro _ _; rfl
  | cons x xs ih =>
    intro hp hs
    have hx : s ≤ x.1 := hs x (List.mem_cons_self _ _)
    have hp' := List.pairwise_cons.mp hp
    by_cases hxe : x.1 ≤ e
    · rw [List.takeWhile_cons_of_pos (by simp [hxe]),
        List.filter_cons_of_pos (by simp [hx, hxe]),
        ih hp'.2 (fun y hy => hs y (List.mem_cons_of_mem _ hy))]
    · rw [List.takeWhile_cons_of_neg (by simp [hxe]),
        List.filter_cons_of_neg (by simp [hxe])]
      have hnil : xs.filter (fun r => decide (s ≤ r.1) && decide (r.1 ≤ e)) = [] := by
        apply List.filter_eq_nil_iff.mpr
        intro y hy
        have hxy : x.1 < y.1 := hp'.1 y hy
        simp only [Bool.and_eq_true, decide_eq_true_eq, not_and]
        intro _
        omega
      rw [hnil]

theorem slice_rows_sorted {s e : Nat} :
    ∀ rows : List (Nat × List DecVal),
      rows.Pairwise (fun a b => a.1 < b.1) →
      (rows.dropWhile (fun r => decide (r.1 < s))).takeWhile (fun r => decide (r.1 ≤ e))
        = rows.filter (fun r => decide (s ≤ r.1) && decide (r.1 ≤ e)) := by
  intro rows
  induction rows with
  | nil => intro _; rfl
  | cons r rs ih =>
    intro hp
    have hp' := List.pairwise_cons.mp hp
    by_cases hrs : r.1 < s
    · have hns : ¬ s ≤ r.1 := by omega
      rw [List.dropWhile_cons_of_pos (by simp [hrs]),
        List.filter_cons_of_neg (by simp [hns])]
      exact ih hp'.2
    · rw [List.dropWhile_cons_of_neg (by simp [hrs])]
      apply takeWhile_le_eq_filter_sorted (r :: rs) hp
      intro y hy
      rcases List.mem_cons.mp hy with rfl | hy
      · omega
      · have := hp'.1 y hy
        omega

theorem locSlice_rows_eq_filter (df : DataFrame) (s e : Nat) (hs : SortedIdx df) :
    (locSlice df s e).rows
      = df.rows.filter (fun r => decide (s ≤ r.1) && decide (r.1 ≤ e)) :=
  slice_rows_sorted df.rows hs

/-! ### Index minimum and maximum -/

theorem listMax_spec : ∀ {l : List Nat} {m : Nat},
    listMax l = some m → m ∈ l ∧ ∀ x ∈ l, x ≤ m := by
  intro l
  induction l with
  | nil => intro m h; cases h
  | cons d ds ih =>
    intro m h
    rw [listMax] at h
    cases hds : listMax ds with
    | none =>
      rw [hds] at h
      have hm : m = d := by cases h; rfl
      subst hm
      have hnil : ds = [] := by
        cases ds with
        | nil => rfl
        | cons d' ds' =>
          exfalso
          rw [listMax] at hds
          cases hmm : listMax ds' with
          | none => rw [hmm] at hds; cases hds
          | some m2 => rw [hmm] at hds; cases hds
      subst hnil
      exact ⟨List.mem_singleton.mpr rfl, by simp⟩
    | some m' =>
      rw [hds] at h
      have hm : m = max d m' := by cases h; rfl
      subst hm
      obtain ⟨hmem, hub⟩ := ih hds
      constructor
      · by_cases hd : d ≤ m'
        · exact List.mem_cons_of_mem _ (by rwa [max_eq_right hd])
        · rw [max_eq_left (by omega)]
          exact List.mem_cons_self _ _
      · intro x hx
        rcases List.mem_cons.mp hx with rfl | hx
        · exact le_max_left _ _
        · exact le_trans (hub x hx) (le_max_right _ _)

theorem listMin_spec : ∀ {l : List Nat} {m : Nat},
    listMin l = some m → m ∈ l ∧ ∀ x ∈ l, m ≤ x := by
  intro l
  induction l with
  | nil => intro m h; cases h
  | cons d ds ih =>
    intro m h
    rw [listMin] at h
    cases hds : listMin ds with
    | none =>
      rw [hds] at h
      have hm : m = d := by cases h; rfl
      subst hm
      have hnil : ds = [] := by
        cases ds with
        | nil => rfl
        | cons d' ds' =>
          exfalso
          rw [listMin] at hds
          cases hmm : listMin ds' with
          | none => rw [hmm] at hds; cases hds
          | some m2 => rw [hmm] at hds; cases hds
      subst hnil
      exact ⟨List.mem_singleton.mpr rfl, by simp⟩
    | some m' =>
      rw [hds] at h
      have hm : m = min d m' := by cases h; rfl
      subst hm
      obtain ⟨hmem, hlb⟩ := ih hds
      constructor
      · by_cases hd : d ≤ m'
        · rw [min_eq_left hd]
          exact List.mem_cons_self _ _
        · exact List.mem_cons_of_mem _ (by rwa [min_eq_right (by omega)])
      · intro x hx
        rcases List.mem_cons.mp hx with rfl | hx
        · exact min_le_left _ _
        · exact le_trans (min_le_right _ _) (hlb x hx)

theorem listMax_ne_none : ∀ {l : List Nat}, l ≠ [] → ∃ m, listMax l = some m := by
  intro l h
  cases l with
  | nil => cases h rfl
  | cons d ds =>
    rw [listMax]
    cases listMax ds with
    | none => exact ⟨d, rfl⟩
    | some m => exact ⟨max d m, rfl⟩

theorem listMin_ne_none : ∀ {l : List Nat}, l ≠ [] → ∃ m, listMin l = some m := by
  intro l h
  cases l with
  | nil => cases h rfl
  | cons d ds =>
    rw [listMin]
    cases listMin ds with
    | none => exact ⟨d, rfl⟩
    | some m => exact ⟨min d m, rfl⟩

theorem listMax_none_iff_nil {l : List Nat} : listMax l = none ↔ l = [] := by
  constructor
  · intro h
    by_contra hne
    obtain ⟨m, hm⟩ := listMax_ne_none hne
    rw [h] at hm
    cases hm
  · rintro rfl
    rfl

theorem listMin_none_iff_nil {l : List Nat} : listMin l = none ↔ l = [] := by
  constructor
  · intro h
    by_contra hne
    obtain ⟨m, hm⟩ := listMin_ne_none hne
    rw [h] at hm
    cases hm
  · rintro rfl
    rfl

/-- The code's band condition in terms of the records of the slice: some
record is dated on or after `bandLo`, and some record is dated on or
before `bandHi`. -/
theorem showBand_iff (f : DataFrame) :
    showBand f = true ↔
      ((∃ r ∈ f.rows, bandLo ≤ r.1) ∧ (∃ r ∈ f.rows, r.1 ≤ bandHi)) := by
  rw [showBand]
  cases hmx : idxMax f with
  | none =>
    rw [idxMax] at hmx
    have hnil : f.rows.map Prod.fst = [] := listMax_none_iff_nil.mp hmx
    have hrows : f.rows = [] := List.map_eq_nil_iff.mp hnil
    simp [hrows]
  | some mx =>
    cases hmn : idxMin f with
    | none =>
      rw [idxMin] at hmn
      have hnil : f.rows.map Prod.fst = [] := listMin_none_iff_nil.mp hmn
      rw [idxMax, hnil] at hmx
      cases hmx
    | some mn =>
      rw [idxMax] at hmx
      rw [idxMin] at hmn
      obtain ⟨hmxmem, hmxub⟩ := listMax_spec hmx
      obtain ⟨hmnmem, hmnlb⟩ := listMin_spec hmn
      simp only [Bool.and_eq_true, decide_eq_true_eq, ge_iff_le]
      constructor
      · rintro ⟨h1, h2⟩
        rcases List.mem_map.mp hmxmem with ⟨r, hr, rfl⟩
        rcases List.mem_map.mp hmnmem with ⟨r', hr', rfl⟩
        exact ⟨⟨r, hr, h1⟩, ⟨r', hr', h2⟩⟩
      · rintro ⟨⟨r, hr, h1⟩, ⟨r', hr', h2⟩⟩
        constructor
        · exact le_trans h1 (hmxub r.1 (List.mem_map.mpr ⟨r, hr, rfl⟩))
        · exact le_trans (hmnlb r'.1 (List.mem_map.mpr ⟨r', hr', rfl⟩)) h2

/-! ### Helper lemmas about the view builders -/

theorem getCol_of_hasCol {df : DataFrame} {c : List Char} (h : hasCol df c = true) :
    ∃ i, getCol df c = some (df.rows.map (fun r => r.2.getD i DecVal.zero)) := by
  rw [hasCol] at h
  rcases Option.isSome_iff_exists.mp h with ⟨i, hi⟩
  refine ⟨i, ?_⟩
  simp only [getCol, hi]

theorem mkTrace_of_empty {df : DataFrame} {c : List Char} (h : hasCol df c = true)
    (hrows : df.rows = []) : mkTrace df c = some ⟨[], []⟩ := by
  obtain ⟨i, hi⟩ := getCol_of_hasCol h
  rw [hrows] at hi
  simp only [mkTrace, hi, hrows, List.map_nil, Option.map_some']

theorem showBand_of_empty {df : DataFrame} (hrows : df.rows = []) :
    showBand df = false := by
  simp only [showBand, idxMax, idxMin, hrows, List.map_nil, listMax, listMin]

theorem mapM_some_of_all_isSome {α β : Type} (f : α → Option β) :
    ∀ l : List α, (∀ a ∈ l, (f a).isSome = true) → ∃ bs, l.mapM f = some bs := by
  intro l
  induction l with
  | nil => intro _; exact ⟨[], rfl⟩
  | cons a as ih =>
    intro h
    rcases Option.isSome_iff_exists.mp (h a (List.mem_cons_self _ _)) with ⟨b, hb⟩
    rcases ih (fun x hx => h x (List.mem_cons_of_mem _ hx)) with ⟨bs, hbs⟩
    refine ⟨b :: bs, ?_⟩
    rw [List.mapM_cons, hb, hbs]
    rfl

theorem dateRangeFilter_cols (df : DataFrame) (sel : List Nat) :
    (dateRangeFilter df sel).cols = df.cols := by
  match sel with
  | [] => rfl
  | [a] => rfl
  | [a, b] => rfl
  | a :: b :: c :: rest => rfl

theorem dateRangeFilter_rows_sublist (df : DataFrame) (sel : List Nat) :
    (dateRangeFilter df sel).rows.Sublist df.rows := by
  match sel with
  | [] => exact List.Sublist.refl _
  | [a] => exact List.Sublist.refl _
  | [a, b] =>
    exact ((List.takeWhile_sublist _).trans (List.dropWhile_sublist _))
  | a :: b :: c :: rest => exact List.Sublist.refl _

theorem wfFrame_filter (df : DataFrame) (sel : List Nat) (hwf : WfFrame df) :
    WfFrame (dateRangeFilter df sel) := by
  obtain ⟨hc, hr⟩ := hwf
  constructor
  · rw [dateRangeFilter_cols]
    exact hc
  · intro r hrm
    rw [dateRangeFilter_cols]
    exact hr r ((dateRangeFilter_rows_sublist df sel).subset hrm)

theorem hasAllCols_filter (df : DataFrame) (sel : List Nat)
    (h : hasAllCols df = true) : hasAllCols (dateRangeFilter df sel) = true := by
  have hcols := dateRangeFilter_cols df sel
  rw [hasAllCols] at h ⊢
  apply List.all_eq_true.mpr
  intro c hcmem
  rw [hasCol, hcols]
  exact List.all_eq_true.mp h c hcmem

theorem tailN_length (n : Nat) (l : List (Nat × List DecVal)) :
    (tailN n l).length = min n l.length := by
  rw [tailN, List.length_drop]
  omega

theorem filter_eq_singleton_min {mn : Nat} :
    ∀ rows : List (Nat × List DecVal), rows.Pairwise (fun a b => a.1 < b.1) →
      (∀ x ∈ rows, mn ≤ x.1) → ∀ r₀ ∈ rows, r₀.1 = mn →
      rows.filter (fun r => decide (mn ≤ r.1) && decide (r.1 ≤ mn)) = [r₀] := by
  intro rows
  induction rows with
  | nil => intro _ _ r₀ h; cases h
  | cons x xs ih =>
    intro hp hlb r₀ hr₀ hfst
    have hp' := List.pairwise_cons.mp hp
    have hxr : r₀ = x := by
      rcases List.mem_cons.mp hr₀ with h | h
      · exact h
      · exfalso
        have h1 : x.1 < r₀.1 := hp'.1 r₀ h
        have h2 : mn ≤ x.1 := hlb x (List.mem_cons_self _ _)
        omega
    subst hxr
    rw [List.filter_cons_of_pos (by simp [hfst])]
    have hnil : xs.filter (fun r => decide (mn ≤ r.1) && decide (r.1 ≤ mn)) = [] := by
      apply List.filter_eq_nil_iff.mpr
      intro y hy
      have := hp'.1 y hy
      simp only [Bool.and_eq_true, decide_eq_true_eq, not_and]
      intro _
      omega
    rw [hnil]

/-! ### Claim theorems -/

/-- C1 (amended): for every record set and every selection, the
correction-band annotation is added iff the filtered slice itself contains
a record dated on or after 2026-02-01 and a record dated on or before
2026-02-16 — that is, iff the slice's own date extent overlaps the fixed
band — not iff the selected [start, end] interval overlaps it. -/
theorem claim1_theorem (df : DataFrame) (sel : List Nat) :
    showBand (dateRangeFilter df sel) = true ↔
      ((∃ r ∈ (dateRangeFilter df sel).rows, bandLo ≤ r.1) ∧
       (∃ r ∈ (dateRangeFilter df sel).rows, r.1 ≤ bandHi)) :=
  showBand_iff _

/-- C1 (counterexample): a record set with records only on 2024-01-01 and
2026-03-01, with the in-bounds selection (2026-01-01, 2026-03-01): the
selected interval overlaps the band 2026-02-01..2026-02-16, yet the band
is not drawn, because the code tests the filtered slice's index extrema
rather than the selected endpoints. -/
theorem claim1_counterexample :
    SortedIdx gapDf ∧
    idxMin gapDf = some 20240101 ∧ idxMax gapDf = some 20260301 ∧
    20240101 ≤ 20260101 ∧ 20260301 ≤ 20260301 ∧
    specRangeOverlapsBand 20260101 20260301 = true ∧
    showBand (dateRangeFilter gapDf [20260101, 20260301]) = false := by
  refine ⟨?_, ?_, ?_, ?_, ?_, ?_, ?_⟩ <;> decide

/-- C4: whenever the selection is not exactly a two-element pair, the
date-range filter returns the entire record set unchanged instead of
failing. -/
theorem claim4_theorem (df : DataFrame) (sel : List Nat) (h : sel.length ≠ 2) :
    dateRangeFilter df sel = df := by
  match sel with
  | [] => rfl
  | [a] => rfl
  | [a, b] => exact absurd rfl h
  | a :: b :: c :: rest => rfl

/-- C4 witness at the empty (mid-edit) selection. -/
theorem claim4_witness : dateRangeFilter sampleDf [] = sampleDf :=
  claim4_theorem sampleDf [] (by decide)

/-- C5: on a unique, monotonically increasing date index, the two-element
selection (start, end) filters to exactly the records whose date d
satisfies start ≤ d ≤ end, in their original order. -/
theorem claim5_theorem (df : DataFrame) (s e : Nat) (hs : SortedIdx df) :
    (dateRangeFilter df [s, e]).rows
      = df.rows.filter (fun r => decide (s ≤ r.1) && decide (r.1 ≤ e)) :=
  locSlice_rows_eq_filter df s e hs

/-- C5 witness on a concrete record set and range. -/
theorem claim5_witness :
    (dateRangeFilter sampleDf [20240102, 20260215]).rows
      = sampleDf.rows.filter
          (fun r => decide (20240102 ≤ r.1) && decide (r.1 ≤ 20260215)) :=
  claim5_theorem sampleDf 20240102 20260215 (by decide)

/-- C6: serializing any filtered slice of a well-formed record set to CSV
text and re-parsing that text returns exactly the slice: the same record
count and the same cell values. -/
theorem claim6_theorem (df : DataFrame) (sel : List Nat) (hwf : WfFrame df) :
    parseCsv (renderCsv (dateRangeFilter df sel)) = .ok (dateRangeFilter df sel) :=
  parseCsv_renderCsv _ (wfFrame_filter df sel hwf)

/-- C6 witness at a concrete slice. -/
theorem claim6_witness :
    parseCsv (renderCsv (dateRangeFilter sampleDf [20240101, 20240102]))
      = .ok (dateRangeFilter sampleDf [20240101, 20240102]) :=
  claim6_theorem sampleDf [20240101, 20240102] (by decide)

/-- C7: selecting start = end = min(date) of a loaded record set yields a
slice with exactly one record (the minimum of a nonempty index is itself a
record date, so the absent-date case cannot arise). -/
theorem claim7_theorem (df : DataFrame) (mn : Nat) (hs : SortedIdx df)
    (hmn : idxMin df = some mn) :
    (dateRangeFilter df [mn, mn]).rows.length = 1 := by
  show (locSlice df mn mn).rows.length = 1
  rw [locSlice_rows_eq_filter df mn mn hs]
  rw [idxMin] at hmn
  obtain ⟨hmem, hlb⟩ := listMin_spec hmn
  rcases List.mem_map.mp hmem with ⟨r₀, hr₀, hfst⟩
  have hlb' : ∀ x ∈ df.rows, mn ≤ x.1 :=
    fun x hx => hlb x.1 (List.mem_map.mpr ⟨x, hx, rfl⟩)
  rw [filter_eq_singleton_min df.rows hs hlb' r₀ hr₀ hfst]
  rfl

/-- C7 witness at the sample record set. -/
theorem claim7_witness :
    (dateRangeFilter sampleDf [20240101, 20240101]).rows.length = 1 :=
  claim7_theorem sampleDf 20240101 (by decide) (by decide)

/-- C9: no interaction mutates the loaded record set: the fallback path's
copy equals the original, every render cycle leaves the cached set
unchanged, and after any sequence of interactions the cache still equals
what load_data returned. -/
theorem claim9_theorem (input : LoadInput) (df0 : DataFrame)
    (_hload : load_data input = .loaded df0) (sels : List (List Nat)) :
    runSession df0 sels = df0 ∧ copyDf df0 = df0 ∧
    ∀ sel, (renderCycle df0 sel).2 = df0 := by
  refine ⟨?_, rfl, fun _ => rfl⟩
  induction sels with
  | nil => rfl
  | cons s ss ih => exact ih

set_option maxRecDepth 100000 in
/-- C9 witness: a loaded sample set and two interactions. -/
theorem claim9_witness :
    runSession sampleDf [[20240101, 20240102], []] = sampleDf ∧
    copyDf sampleDf = sampleDf :=
  ⟨(claim9_theorem (.fileContent (renderCsv sampleDf)) sampleDf (by decide)
      [[20240101, 20240102], []]).1,
   (claim9_theorem (.fileContent (renderCsv sampleDf)) sampleDf (by decide)
      [[20240101, 20240102], []]).2.1⟩

/-- C2: with a sorted index and the nine metric columns present, an
inverted selection (start > end) filters to an empty slice, and each of
the five tab builders succeeds on that empty slice, producing figures
whose traces are all empty (and, for the fifth tab, an empty table and a
header-only CSV). -/
theorem claim2_theorem (df : DataFrame) (s e : Nat) (hs : SortedIdx df)
    (hcols : hasAllCols df = true) (hse : e < s) :
    (dateRangeFilter df [s, e]).rows = [] ∧
    buildFig1 (dateRangeFilter df [s, e])
      = some ⟨[⟨[], []⟩, ⟨[], []⟩, ⟨[], []⟩, ⟨[], []⟩], none⟩ ∧
    buildFig2 (dateRangeFilter df [s, e]) = some ⟨[⟨[], []⟩, ⟨[], []⟩]⟩ ∧
    buildFig3 (dateRangeFilter df [s, e]) = some ⟨⟨[], []⟩, none, none, -1, 1⟩ ∧
    buildFig4 (dateRangeFilter df [s, e]) = some ⟨[⟨[], []⟩, ⟨[], []⟩], true⟩ ∧
    buildTab5 (dateRangeFilter df [s, e])
      = some ⟨nineCols, [], displayFormats, renderCsv (dateRangeFilter df [s, e])⟩ := by
  have hempty : (dateRangeFilter df [s, e]).rows = [] := by
    rw [show dateRangeFilter df [s, e] = locSlice df s e from rfl,
      locSlice_rows_eq_filter df s e hs]
    apply List.filter_eq_nil_iff.mpr
    intro r _
    simp only [Bool.and_eq_true, decide_eq_true_eq, not_and]
    intro _
    omega
  have hA : hasAllCols (dateRangeFilter df [s, e]) = true :=
    hasAllCols_filter df _ hcols
  have hcol : ∀ c ∈ nineCols, hasCol (dateRangeFilter df [s, e]) c = true :=
    fun c hc => List.all_eq_true.mp hA c hc
  have hmin : idxMin (dateRangeFilter df [s, e]) = none := by
    rw [idxMin, hempty]
    rfl
  have hmax : idxMax (dateRangeFilter df [s, e]) = none := by
    rw [idxMax, hempty]
    rfl
  refine ⟨hempty, ?_, ?_, ?_, ?_, ?_⟩
  · have h1 := mkTrace_of_empty (hcol colBtcPrice (by decide)) hempty
    have h2 := mkTrace_of_empty (hcol colBtcMa (by decide)) hempty
    have h3 := mkTrace_of_empty (hcol colEthPrice (by decide)) hempty
    have h4 := mkTrace_of_empty (hcol colEthMa (by decide)) hempty
    simp only [buildFig1, h1, h2, h3, h4, Option.bind_eq_bind, Option.some_bind,
      showBand_of_empty hempty]
    simp
  · have h1 := mkTrace_of_empty (hcol colBtcVol (by decide)) hempty
    have h2 := mkTrace_of_empty (hcol colEthVol (by decide)) hempty
    simp only [buildFig2, h1, h2, Option.bind_eq_bind, Option.some_bind]
    rfl
  · have h1 := mkTrace_of_empty (hcol colCorr (by decide)) hempty
    simp only [buildFig3, h1, Option.bind_eq_bind, Option.some_bind, hmin, hmax]
    rfl
  · have h1 := mkTrace_of_empty (hcol colBtcVolume (by decide)) hempty
    have h2 := mkTrace_of_empty (hcol colEthVolume (by decide)) hempty
    simp only [buildFig4, h1, h2, Option.bind_eq_bind, Option.some_bind]
    rfl
  · obtain ⟨idxs, hidxs⟩ := mapM_some_of_all_isSome
      (fun c => (dateRangeFilter df [s, e]).cols.findIdx? (fun x => decide (x = c)))
      nineCols (fun c hc => hcol c hc)
    simp only [buildTab5, hidxs, Option.bind_eq_bind, Option.some_bind, hempty]
    simp [tailN]

/-- C2 witness: the sample record set with the inverted range
(2026-02-15, 2024-01-01). -/
theorem claim2_witness :
    (dateRangeFilter sampleDf [20260215, 20240101]).rows = [] ∧
    buildFig1 (dateRangeFilter sampleDf [20260215, 20240101])
      = some ⟨[⟨[], []⟩, ⟨[], []⟩, ⟨[], []⟩, ⟨[], []⟩], none⟩ ∧
    buildFig2 (dateRangeFilter sampleDf [20260215, 20240101])
      = some ⟨[⟨[], []⟩, ⟨[], []⟩]⟩ ∧
    buildFig3 (dateRangeFilter sampleDf [20260215, 20240101])
      = some ⟨⟨[], []⟩, none, none, -1, 1⟩ ∧
    buildFig4 (dateRangeFilter sampleDf [20260215, 20240101])
      = some ⟨[⟨[], []⟩, ⟨[], []⟩], true⟩ ∧
    buildTab5 (dateRangeFilter sampleDf [20260215, 20240101])
      = some ⟨nineCols, [], displayFormats,
          renderCsv (dateRangeFilter sampleDf [20260215, 20240101])⟩ :=
  claim2_theorem sampleDf 20260215 20240101 (by decide) (by decide) (by decide)

/-- C3: loading has exactly the recognized outcomes, all terminal: a
missing file halts with the fixed message; any parse failure halts with a
message that ends with the underlying error text; a successful parse
loads the whole table; and every halt message is one of those two. -/
theorem claim3_theorem (input : LoadInput) :
    (input = .missingFile → load_data input = .halted fnfMsg) ∧
    (∀ text df, input = .fileContent text → parseCsv text = .ok df →
      load_data input = .loaded df) ∧
    (∀ text e, input = .fileContent text → parseCsv text = .error e →
      load_data input = .halted (errPrefix ++ e) ∧ e <:+ errPrefix ++ e) ∧
    (∀ m, load_data input = .halted m →
      m = fnfMsg ∨
      ∃ text e, input = .fileContent text ∧ parseCsv text = .error e ∧
        m = errPrefix ++ e) := by
  cases input with
  | missingFile =>
    refine ⟨fun _ => rfl, ?_, ?_, ?_⟩
    · intro text df h
      cases h
    · intro text e h
      cases h
    · intro m hm
      left
      have : LoadOutcome.halted fnfMsg = LoadOutcome.halted m := hm
      cases this
      rfl
  | fileContent text =>
    refine ⟨?_, ?_, ?_, ?_⟩
    · intro h
      cases h
    · intro t df ht hp
      cases ht
      simp only [load_data, hp]
    · intro t e ht hp
      cases ht
      constructor
      · simp only [load_data, hp]
      · exact List.suffix_append errPrefix e
    · intro m hm
      cases hparse : parseCsv text with
      | ok df =>
        exfalso
        simp only [load_data, hparse] at hm
        cases hm
      | error e =>
        right
        simp only [load_data, hparse] at hm
        cases hm
        exact ⟨text, e, rfl, hparse, rfl⟩

set_option maxRecDepth 100000 in
/-- C3 witness: the three outcomes at concrete inputs: no file, a
well-formed file, and a file whose data row has a malformed date. -/
theorem claim3_witness :
    load_data .missingFile = .halted fnfMsg ∧
    load_data (.fileContent (renderCsv sampleDf)) = .loaded sampleDf ∧
    load_data (.fileContent badCsvText) = .halted (errPrefix ++ rowErrMsg) ∧
    rowErrMsg <:+ errPrefix ++ rowErrMsg := by
  refine ⟨(claim3_theorem .missingFile).1 rfl, ?_, ?_, ?_⟩
  · exact (claim3_theorem _).2.1 (renderCsv sampleDf) sampleDf rfl (by decide)
  · exact ((claim3_theorem _).2.2.1 badCsvText rowErrMsg rfl (by decide)).1
  · exact ((claim3_theorem _).2.2.1 badCsvText rowErrMsg rfl (by decide)).2

/-- C8: the table view shows exactly the most recent 15 records (all if
fewer) restricted to the nine metric columns, rounded for display under
the fixed format strings, while the CSV download reproduces every record
of the range-filtered slice across all original columns. -/
theorem claim8_theorem (df : DataFrame) (sel : List Nat)
    (hcols : hasAllCols df = true) (hwf : WfFrame df) :
    ∃ t idxs, buildTab5 (dateRangeFilter df sel) = some t ∧
      nineCols.mapM (fun c =>
        (dateRangeFilter df sel).cols.findIdx? (fun x => decide (x = c)))
        = some idxs ∧
      t.tableCols = nineCols ∧
      t.formats = displayFormats ∧
      t.tableRows = (tailN 15 (dateRangeFilter df sel).rows).map
        (fun r => (r.1, idxs.map (fun i => DecVal.round2 (r.2.getD i DecVal.zero)))) ∧
      t.tableRows.length = min 15 (dateRangeFilter df sel).rows.length ∧
      t.csv = renderCsv (dateRangeFilter df sel) ∧
      parseCsv t.csv = .ok (dateRangeFilter df sel) := by
  have hA : hasAllCols (dateRangeFilter df sel) = true :=
    hasAllCols_filter df sel hcols
  obtain ⟨idxs, hidxs⟩ := mapM_some_of_all_isSome
    (fun c => (dateRangeFilter df sel).cols.findIdx? (fun x => decide (x = c)))
    nineCols (fun c hc => List.all_eq_true.mp hA c hc)
  have hbuild : buildTab5 (dateRangeFilter df sel) = some
      ⟨nineCols,
       (tailN 15 (dateRangeFilter df sel).rows).map
         (fun r => (r.1, idxs.map (fun i => DecVal.round2 (r.2.getD i DecVal.zero)))),
       displayFormats, renderCsv (dateRangeFilter df sel)⟩ := by
    simp only [buildTab5, hidxs, Option.bind_eq_bind, Option.some_bind]
    rfl
  refine ⟨_, idxs, hbuild, hidxs, rfl, rfl, rfl, ?_, rfl, ?_⟩
  · simp only [List.length_map, tailN_length]
  · exact parseCsv_renderCsv _ (wfFrame_filter df sel hwf)

set_option maxRecDepth 100000 in
/-- C8 witness at the sample record set with the fallback selection. -/
theorem claim8_witness :
    ∃ t idxs, buildTab5 (dateRangeFilter sampleDf []) = some t ∧
      nineCols.mapM (fun c =>
        (dateRangeFilter sampleDf []).cols.findIdx? (fun x => decide (x = c)))
        = some idxs ∧
      t.tableCols = nineCols ∧
      t.formats = displayFormats ∧
      t.tableRows = (tailN 15 (dateRangeFilter sampleDf []).rows).map
        (fun r => (r.1, idxs.map (fun i => DecVal.round2 (r.2.getD i DecVal.zero)))) ∧
      t.tableRows.length = min 15 (dateRangeFilter sampleDf []).rows.length ∧
      t.csv = renderCsv (dateRangeFilter sampleDf []) ∧
      parseCsv t.csv = .ok (dateRangeFilter sampleDf []) :=
  claim8_theorem sampleDf [] (by decide) (by decide)

set_option maxRecDepth 100000 in
/-- C10: displayed table values are rounded to 2 decimal places before
formatting, while the downloaded CSV is built from the unrounded slice,
so on a record set with three-decimal cells the exported values differ
from the displayed ones at full precision. -/
theorem claim10_theorem :
    (∀ f t, buildTab5 f = some t → t.csv = renderCsv f) ∧
    (∀ f t idxs, buildTab5 f = some t →
      nineCols.mapM (fun c => f.cols.findIdx? (fun x => decide (x = c)))
        = some idxs →
      t.tableRows = (tailN 15 f.rows).map
        (fun r => (r.1, idxs.map (fun i => DecVal.round2 (r.2.getD i DecVal.zero))))) ∧
    (∃ t, buildTab5 df10 = some t ∧
      t.tableRows = [(20240101, List.replicate 9 ⟨124, 2⟩)] ∧
      parseCsv t.csv = .ok df10 ∧
      DecVal.toRat ⟨124, 2⟩ ≠ DecVal.toRat ⟨1239, 3⟩) := by
  refine ⟨?_, ?_, ?_⟩
  · intro f t h
    cases hidxs : nineCols.mapM (fun c => f.cols.findIdx? (fun x => decide (x = c))) with
    | none =>
      simp only [buildTab5, hidxs, Option.bind_eq_bind, Option.none_bind] at h
      cases h
    | some idxs =>
      simp only [buildTab5, hidxs, Option.bind_eq_bind, Option.some_bind] at h
      cases h
      rfl
  · intro f t idxs h hidxs
    simp only [buildTab5, hidxs, Option.bind_eq_bind, Option.some_bind] at h
    cases h
    rfl
  · refine ⟨⟨nineCols, [(20240101, List.replicate 9 ⟨124, 2⟩)], displayFormats,
      renderCsv df10⟩, ?_, rfl, ?_, ?_⟩
    · decide
    · exact parseCsv_renderCsv df10 ⟨by decide, by decide⟩
    · intro hr
      have : (124 : ℚ) / 100 = 1239 / 1000 := by
        simpa [DecVal.toRat] using hr
      norm_num at this

/-- C10 witness: at the concrete three-decimal record set, the download
text is the export of the unrounded slice. -/
theorem claim10_witness :
    ∃ t, buildTab5 df10 = some t ∧ t.csv = renderCsv df10 := by
  obtain ⟨t, ht, _, _, _⟩ := claim10_theorem.2.2
  exact ⟨t, ht, claim10_theorem.1 df10 t ht⟩

end CryptoDashboard
